import Mathlib

/-!
Verification of the ContentProofing pipeline: a shallow embedding of the
suggestion lifecycle (`app/services/analyzer.py`), the crawler
(`app/services/crawler.py`) and the crawl-job cancel endpoint
(`app/api/v1/endpoints/crawl.py`), with theorems settling the spec claims.

Text is modelled as `List Char`; Python slicing `t[:i]`/`t[j:]` on
non-negative indices is `List.take`/`List.drop` (both clamp out-of-range
indices exactly as Python slices do).
-/

namespace ContentProofing

/-- A row of the `contents` table (`app/database/models.py`, class `Content`). -/
structure Content where
  id : Nat
  url : String
  title : List Char
  original_text : List Char
  cleaned_text : List Char
  status : String
deriving DecidableEq, Repr

/-- A row of the `suggestions` table (`app/database/models.py`, class `Suggestion`). -/
structure Suggestion where
  id : Nat
  content_id : Nat
  original_text : List Char
  suggested_text : List Char
  error_type : String
  explanation : String
  confidence_score : ℚ
  start_position : Nat
  end_position : Nat
  status : String
deriving DecidableEq, Repr

/-- A row of the `audit_logs` table (`app/database/models.py`, class `AuditLog`). -/
structure AuditLog where
  content_id : Nat
  action : String
  details : String
  user_id : Option String
deriving DecidableEq, Repr

/-- The relational store as seen by `ContentAnalyzer` (its `self.db` session). -/
structure DB where
  contents : List Content
  suggestions : List Suggestion
  audit_logs : List AuditLog
deriving DecidableEq, Repr

/-- `ContentAnalyzer.apply_suggestion` (`app/services/analyzer.py` lines 230-265).
Looks the suggestion up by id (`.filter(Suggestion.id == suggestion_id).first()`),
returns `False` if absent; follows `suggestion.content` (returns `False` via the
`except` clause if the content row is missing); splices
`cleaned_text[:start] + suggested_text + cleaned_text[end:]`, sets the
suggestion status to `"applied"`, appends an AuditLog row with action
`"suggestion_applied"` and returns `True`.  No status check and no position
validation occur anywhere in the source. -/
def apply_suggestion (db : DB) (suggestion_id : Nat) (user_id : Option String) :
    Bool × DB :=
  match db.suggestions.find? (fun s => s.id == suggestion_id) with
  | none => (false, db)
  | some s =>
    match db.contents.find? (fun c => c.id == s.content_id) with
    | none => (false, db)
    | some c =>
      let new_text :=
        c.cleaned_text.take s.start_position ++ s.suggested_text ++
          c.cleaned_text.drop s.end_position
      (true,
        { db with
          contents := db.contents.map (fun c0 =>
            if c0.id == c.id then { c0 with cleaned_text := new_text } else c0),
          suggestions := db.suggestions.map (fun s0 =>
            if s0.id == suggestion_id then { s0 with status := "applied" } else s0),
          audit_logs := db.audit_logs ++
            [{ content_id := c.id, action := "suggestion_applied",
               details := "Applied suggestion " ++ toString suggestion_id,
               user_id := user_id }] })

/-- A suggestion dict as produced by the analysis routines of
`ContentAnalyzer` before it is inserted as a `Suggestion` row
(the literal dicts built in `_check_basic_punctuation` and the validated
dicts of `_analyze_with_corporate_api`). -/
structure RawSugg where
  original_text : List Char
  suggested_text : List Char
  error_type : String
  explanation : String
  confidence_score : ℚ
  start_position : Nat
  end_position : Nat
deriving DecidableEq, Repr

/-- `double_space_pattern.finditer(text)` for the regex `r'  +'`
(`_check_basic_punctuation`, `app/services/analyzer.py` lines 202-212),
together with the suggestion dict built for each match.  A match starts at
the first index of a maximal run of at least two spaces; the greedy `+`
makes the match cover the whole run; scanning resumes at the match end. -/
def finditer_double_space (t : List Char) (i : Nat) : List RawSugg :=
  if h : i < t.length then
    let n := ((t.drop i).takeWhile (fun c => c == ' ')).length
    if hn : 2 ≤ n then
      { original_text := (t.drop i).take n, suggested_text := [' '],
        error_type := "punctuation",
        explanation := "Multiple spaces should be replaced with a single space",
        confidence_score := 8/10,
        start_position := i, end_position := i + n } :: finditer_double_space t (i + n)
    else finditer_double_space t (i + 1)
  else []
termination_by t.length - i
decreasing_by
  · omega
  · omega

/-- `missing_space_pattern.finditer(text)` for the regex `r'[.!?][a-zA-Z]'`
(`_check_basic_punctuation`, `app/services/analyzer.py` lines 215-225),
together with the suggestion dict built for each match.  Matches are found
left to right and do not overlap, so scanning resumes two characters after
a match. -/
def finditer_missing_space (t : List Char) (i : Nat) : List RawSugg :=
  match h : t.drop i with
  | a :: b :: _ =>
    if (a == '.' || a == '!' || a == '?') && b.isAlpha then
      { original_text := [a, b], suggested_text := [a, ' ', b],
        error_type := "punctuation",
        explanation := "Missing space after punctuation",
        confidence_score := 7/10,
        start_position := i, end_position := i + 2 } :: finditer_missing_space t (i + 2)
    else finditer_missing_space t (i + 1)
  | _ => []
termination_by t.length - i
decreasing_by
  all_goals
    have hi : i < t.length := by
      by_contra hh
      push_neg at hh
      rw [List.drop_eq_nil_of_le hh] at h
      exact absurd h (by simp)
    omega

/-- `ContentAnalyzer._check_basic_punctuation` (`app/services/analyzer.py`
lines 197-227): the double-space suggestions followed by the
missing-space-after-punctuation suggestions. -/
def check_basic_punctuation (t : List Char) : List RawSugg :=
  finditer_double_space t 0 ++ finditer_missing_space t 0

/-- The chunk list `[text[i:i+max_chunk_size] for i in range(0, len(text), max_chunk_size)]`
of `_analyze_with_corporate_api` (`app/services/analyzer.py` line 97).  Python's
`range` with step 0 is an error, so the `csize = 0` guard is never exercised by
the source; every claim about chunking assumes `0 < csize`. -/
def text_chunks (csize : Nat) (t : List Char) : List (List Char) :=
  if t = [] ∨ csize = 0 then [] else t.take csize :: text_chunks csize (t.drop csize)
termination_by t.length
decreasing_by
  simp only [not_or] at *
  have : t.length ≠ 0 := by
    intro hh
    exact absurd (List.length_eq_zero.mp hh) (by tauto)
  have : csize ≠ 0 := by tauto
  simp only [List.length_drop]
  omega

/-- The position adjustment `suggestion['start_position'] += chunk_offset;`
`suggestion['end_position'] += chunk_offset` of `_analyze_with_corporate_api`
(`app/services/analyzer.py` lines 168-170). -/
def offset_suggestion (off : Nat) (s : RawSugg) : RawSugg :=
  { s with start_position := s.start_position + off,
           end_position := s.end_position + off }

/-- The `for chunk_index, chunk in enumerate(text_chunks)` loop of
`_analyze_with_corporate_api` (`app/services/analyzer.py` lines 99-183): one
backend call per chunk (`backend chunk` abstracts the API round trip and JSON
parse of that chunk's response), every returned suggestion offset by
`chunk_index * csize` (`chunk_offset = chunk_index * max_chunk_size`). -/
def analyze_chunks (backend : List Char → List RawSugg) (csize : Nat) :
    List (List Char) → Nat → List RawSugg
  | [], _ => []
  | c :: cs, idx =>
      (backend c).map (offset_suggestion (idx * csize)) ++
        analyze_chunks backend csize cs (idx + 1)

/-- `ContentAnalyzer._analyze_with_corporate_api` (`app/services/analyzer.py`
lines 82-188), with the per-chunk API call abstracted as `backend`. -/
def analyze_with_corporate_api (backend : List Char → List RawSugg)
    (csize : Nat) (t : List Char) : List RawSugg :=
  analyze_chunks backend csize (text_chunks csize t) 0

/-- A parsed URL as seen through `urllib.parse.urlparse`: its `netloc` (host)
and the rest of the URL. -/
structure Url where
  host : String
  path : String
deriving DecidableEq, Repr

/-- An `href` attribute value found by `soup.find_all('a', href=True)`:
either already absolute (carrying its own host) or relative. -/
inductive Href where
  | absolute : Url → Href
  | relative : String → Href
deriving DecidableEq, Repr

/-- `urllib.parse.urljoin(base_url, href)`: an absolute href keeps its own
host, a relative href is resolved against the base URL. -/
def urljoin (base : Url) : Href → Url
  | .absolute u => u
  | .relative p => { host := base.host, path := p }

/-- `WebCrawler._extract_links` (`app/services/crawler.py` lines 141-160):
resolve every href against `base_url`, keep only URLs whose
`urlparse(full_url).netloc` equals the base URL's netloc, and deduplicate
via `list(set(links))`. -/
def extract_links (hrefs : List Href) (base : Url) : List Url :=
  ((hrefs.map (urljoin base)).filter (fun u => u.host == base.host)).dedup

/-- The `(title, original_text, cleaned_text)` triple produced by
`WebCrawler._extract_content`. -/
structure Extracted where
  title : List Char
  original_text : List Char
  cleaned_text : List Char
deriving DecidableEq, Repr

/-- `WebCrawler._extract_content` (`app/services/crawler.py` lines 107-139):
the whole body is wrapped in `try/except`; `parse` abstracts the
readability/BeautifulSoup extraction pipeline, whose failure (any raised
exception) is caught and turned into `None`.  The function itself never
raises. -/
def extract_content (parse : String → Except String Extracted)
    (html : String) : Option Extracted :=
  match parse html with
  | .ok d => some d
  | .error _ => none

/-- One fetchable page of the modelled web: `ok` is `response.status == 200`,
`extracted` is the `_extract_content` result for its markup, `links` the
`_extract_links` result.  A URL mapped to `none` models a network error or
timeout raised by `session.get` (caught by the per-URL `except`). -/
structure Page where
  ok : Bool
  extracted : Option Extracted
  links : List String
deriving Repr

/-- The mutable state threaded through `_crawl_recursive`: `self.visited_urls`,
the `crawled_urls` list, and the job status row the session `self.db` could
show the crawler (`jobStatus`; the source never reads it during traversal).
`fetched` is a ghost trace recording each attempted `session.get` with the
depth at which it happened, used only to state claims. -/
structure CrawlState where
  visited : List String
  fetched : List (String × Nat)
  crawled : List String
  jobStatus : String
deriving DecidableEq, Repr

mutual

/-- `WebCrawler._crawl_recursive` (`app/services/crawler.py` lines 54-105):
return at once if `depth > max_depth`, the page count reached `max_pages`,
or the URL was already visited; otherwise mark visited, fetch (recording the
attempt in the ghost trace); on HTTP 200 with successful extraction append
the URL to `crawled_urls` and, only when `depth < max_depth`, recurse over
the first 10 extracted links at `depth + 1`.  A fetch error (`web url =
none`), a non-200 status, or a failed extraction just abandons the branch,
exactly like the logged-and-swallowed exceptions of the source. -/
def crawl_recursive (web : String → Option Page) (maxDepth maxPages : Nat)
    (url : String) (depth : Nat) (st : CrawlState) : CrawlState :=
  if depth > maxDepth ∨ st.crawled.length ≥ maxPages ∨ url ∈ st.visited then
    st
  else
    let st1 : CrawlState :=
      { st with visited := url :: st.visited, fetched := (url, depth) :: st.fetched }
    match web url with
    | none => st1
    | some page =>
      if page.ok then
        match page.extracted with
        | none => st1
        | some _ =>
          let st2 : CrawlState := { st1 with crawled := url :: st1.crawled }
          if h : depth < maxDepth then
            crawl_links web maxDepth maxPages (page.links.take 10) (depth + 1) st2
          else
            st2
      else st1
termination_by (maxDepth + 1 - depth, 0)

/-- The `for link in links[:10]` loop body of `_crawl_recursive`
(`app/services/crawler.py` lines 100-102). -/
def crawl_links (web : String → Option Page) (maxDepth maxPages : Nat)
    (links : List String) (depth : Nat) (st : CrawlState) : CrawlState :=
  match links with
  | [] => st
  | l :: ls =>
      crawl_links web maxDepth maxPages ls depth
        (crawl_recursive web maxDepth maxPages l depth st)
termination_by (maxDepth + 1 - depth, links.length + 1)

end

/-- A row of the `crawl_jobs` table (`app/database/models.py`, class `CrawlJob`). -/
structure CrawlJob where
  id : Nat
  url : String
  status : String
  pages_crawled : Nat
deriving DecidableEq, Repr

/-- `WebCrawler.crawl_url` (`app/services/crawler.py` lines 23-52) on the
success path: set the job to `running`, run the recursive crawl from the
seed at depth 0 with a fresh visited set and empty `crawled_urls`, then set
the job to `completed` with `pages_crawled = len(crawled_urls)`. -/
def crawl_url (web : String → Option Page) (maxDepth maxPages : Nat)
    (start_url : String) (job : CrawlJob) : CrawlJob × CrawlState :=
  let st := crawl_recursive web maxDepth maxPages start_url 0
    { visited := [], fetched := [], crawled := [], jobStatus := "running" }
  ({ job with status := "completed", pages_crawled := st.crawled.length }, st)

/-- `cancel_crawl_job` (`app/api/v1/endpoints/crawl.py` lines 63-78): 404 if
the job id is unknown; if the status is `pending` or `running`, set it to
`cancelled` and commit; otherwise reject with HTTP 400. -/
def cancel_crawl_job (jobs : List CrawlJob) (job_id : Nat) :
    Except Nat (List CrawlJob) :=
  match jobs.find? (fun j => j.id == job_id) with
  | none => Except.error 404
  | some job =>
    if job.status = "pending" ∨ job.status = "running" then
      Except.ok (jobs.map (fun j =>
        if j.id == job_id then { j with status := "cancelled" } else j))
    else Except.error 400

/-- A URL `u` whose fetch succeeds with HTTP 200 and whose extraction yields
content: exactly the condition under which `_crawl_recursive` appends `u` to
`crawled_urls`. -/
def okExtract (web : String → Option Page) (u : String) : Prop :=
  ∃ p, web u = some p ∧ p.ok = true ∧ p.extracted.isSome

/-- Relation between the crawl state before and after a traversal step: the
page count grows at most to `maxP`, every new fetch happened at depth
≤ `maxD`, every newly crawled URL had a successful fetch-and-extract, and
the job status column is untouched. -/
def CrawlPost (web : String → Option Page) (maxD maxP : Nat)
    (st st2 : CrawlState) : Prop :=
  st2.crawled.length ≤ max maxP st.crawled.length ∧
  (∀ p ∈ st2.fetched, p ∈ st.fetched ∨ p.2 ≤ maxD) ∧
  (∀ u ∈ st2.crawled, u ∈ st.crawled ∨ okExtract web u) ∧
  st2.jobStatus = st.jobStatus

/-- Overwrite the job-status column seen by the crawler (what an external
cancel request does to the row while a crawl is in flight). -/
def setStatus (x : String) (st : CrawlState) : CrawlState :=
  { st with jobStatus := x }

/-! Concrete instances used by counterexamples and witnesses. -/

/-- A successfully extracted page body. -/
def exampleExtracted : Extracted :=
  { title := "t".toList, original_text := "x y".toList, cleaned_text := "x y".toList }

/-- A two-page site: `"a"` links to `"b"`, both fetch with HTTP 200 and
extract successfully. -/
def exampleWeb : String → Option Page := fun u =>
  if u = "a" then some { ok := true, extracted := some exampleExtracted, links := ["b"] }
  else if u = "b" then some { ok := true, extracted := some exampleExtracted, links := [] }
  else none

/-- A store holding one content row whose suggestion 1 has already been
applied once: the double space of `"Hello  world"` was replaced, leaving
`"Hello world"`, and the suggestion status is `"applied"`. -/
def dbApplied : DB :=
  { contents := [
      { id := 1, url := "u", title := "t".toList,
        original_text := "Hello  world".toList,
        cleaned_text := "Hello world".toList, status := "analyzed" }],
    suggestions := [
      { id := 1, content_id := 1,
        original_text := "  ".toList, suggested_text := " ".toList,
        error_type := "punctuation",
        explanation := "Multiple spaces should be replaced with a single space",
        confidence_score := 8/10, start_position := 5, end_position := 7,
        status := "applied" }],
    audit_logs := [] }

/-- A store holding the content `"Hello  world"` with the pending suggestion
`{start: 5, end: 7, suggested_text: " "}` of the spec's splice example. -/
def dbHello : DB :=
  { contents := [
      { id := 1, url := "u", title := "t".toList,
        original_text := "Hello  world".toList,
        cleaned_text := "Hello  world".toList, status := "analyzed" }],
    suggestions := [
      { id := 1, content_id := 1,
        original_text := "  ".toList, suggested_text := " ".toList,
        error_type := "punctuation",
        explanation := "Multiple spaces should be replaced with a single space",
        confidence_score := 8/10, start_position := 5, end_position := 7,
        status := "pending" }],
    audit_logs := [] }

/-- A store whose only suggestion carries positions `[10, 20)` far outside
its 3-character content `"abc"`. -/
def dbShort : DB :=
  { contents := [
      { id := 1, url := "u", title := "t".toList,
        original_text := "abc".toList, cleaned_text := "abc".toList,
        status := "analyzed" }],
    suggestions := [
      { id := 1, content_id := 1,
        original_text := "zz".toList, suggested_text := "X".toList,
        error_type := "spelling", explanation := "e",
        confidence_score := 9/10, start_position := 10, end_position := 20,
        status := "pending" }],
    audit_logs := [] }

/-- A backend that proposes replacing the first character of every chunk. -/
def exampleBackend : List Char → List RawSugg := fun c =>
  [{ original_text := c.take 1, suggested_text := "Z".toList,
     error_type := "style", explanation := "e", confidence_score := 1/2,
     start_position := 0, end_position := 1 }]

/-- Hrefs of one page: two same-host absolute links (one repeated via a
relative href), and one foreign-host link. -/
def exampleHrefs : List Href :=
  [Href.absolute { host := "h", path := "/p1" },
   Href.relative "/p1",
   Href.absolute { host := "other", path := "/q" },
   Href.relative "/p2"]

/-- An extraction pipeline that raises on every input (malformed markup). -/
def parseFail : String → Except String Extracted :=
  fun _ => Except.error "unparseable"

/-- A crawl-jobs table with one pending, one running and one completed job. -/
def exampleJobs : List CrawlJob :=
  [{ id := 1, url := "a", status := "pending", pages_crawled := 0 },
   { id := 2, url := "b", status := "running", pages_crawled := 3 },
   { id := 3, url := "c", status := "completed", pages_crawled := 7 }]

/-- The double-space suggestion that the fallback rules produce for `"a  b"`. -/
def dsExample : RawSugg :=
  { original_text := [' ', ' '], suggested_text := [' '],
    error_type := "punctuation",
    explanation := "Multiple spaces should be replaced with a single space",
    confidence_score := 8/10, start_position := 1, end_position := 3 }

/-!  Helper lemmas. -/

/-- Every match reported by the double-space scan lies inside the text, is
nonempty, and quotes exactly the matched slice. -/
theorem finditer_double_space_sound (t : List Char) (i : Nat) :
    ∀ s ∈ finditer_double_space t i,
      i ≤ s.start_position ∧ s.start_position < s.end_position ∧
      s.end_position ≤ t.length ∧
      (t.drop s.start_position).take (s.end_position - s.start_position) =
        s.original_text := by
  induction i using finditer_double_space.induct t with
  | case1 i h n hn ih =>
    intro s hs
    rw [finditer_double_space, dif_pos h, dif_pos hn] at hs
    rcases List.mem_cons.mp hs with rfl | hs
    · refine ⟨le_refl _, by simp; omega, ?_, ?_⟩
      · have h1 : n ≤ (t.drop i).length := (List.takeWhile_sublist _).length_le
        have h2 : (t.drop i).length = t.length - i := List.length_drop i t
        simp only
        omega
      · simp only [Nat.add_sub_cancel_left]
    · obtain ⟨h1, h2, h3, h4⟩ := ih s hs
      exact ⟨by omega, h2, h3, h4⟩
  | case2 i h n hn ih =>
    intro s hs
    rw [finditer_double_space, dif_pos h, dif_neg hn] at hs
    obtain ⟨h1, h2, h3, h4⟩ := ih s hs
    exact ⟨by omega, h2, h3, h4⟩
  | case3 i h =>
    intro s hs
    rw [finditer_double_space, dif_neg h] at hs
    exact absurd hs (List.not_mem_nil s)

/-- Every match reported by the missing-space scan lies inside the text, is
nonempty, and quotes exactly the matched slice. -/
theorem finditer_missing_space_sound (t : List Char) (i : Nat) :
    ∀ s ∈ finditer_missing_space t i,
      i ≤ s.start_position ∧ s.start_position < s.end_position ∧
      s.end_position ≤ t.length ∧
      (t.drop s.start_position).take (s.end_position - s.start_position) =
        s.original_text := by
  induction i using finditer_missing_space.induct t with
  | case1 i a b rest h hc ih =>
    intro s hs
    have hlen : (t.drop i).length = t.length - i := List.length_drop i t
    rw [finditer_missing_space] at hs
    split at hs
    case _ a2 b2 tl2 heq =>
      rw [h] at heq
      injection heq with ha heq2
      injection heq2 with hb _
      subst ha
      subst hb
      rw [if_pos hc] at hs
      rcases List.mem_cons.mp hs with rfl | hs
      · refine ⟨le_refl _, by simp, ?_, ?_⟩
        · simp only
          rw [h] at hlen
          simp only [List.length_cons] at hlen
          omega
        · simp [Nat.add_sub_cancel_left, h]
      · obtain ⟨h1, h2, h3, h4⟩ := ih s hs
        exact ⟨by omega, h2, h3, h4⟩
    case _ hno =>
      exact absurd h (by intro hh; exact hno a b rest hh)
  | case2 i a b rest h hc ih =>
    intro s hs
    rw [finditer_missing_space] at hs
    split at hs
    case _ a2 b2 tl2 heq =>
      rw [h] at heq
      injection heq with ha heq2
      injection heq2 with hb _
      subst ha
      subst hb
      rw [if_neg hc] at hs
      obtain ⟨h1, h2, h3, h4⟩ := ih s hs
      exact ⟨by omega, h2, h3, h4⟩
    case _ hno =>
      exact absurd h (by intro hh; exact hno a b rest hh)
  | case3 i h =>
    intro s hs
    rw [finditer_missing_space] at hs
    split at hs
    case _ a2 b2 tl2 heq =>
      exact absurd heq (by intro hh; exact h a2 b2 tl2 hh)
    case _ hno =>
      exact absurd hs (List.not_mem_nil s)

/-- `CrawlPost` is reflexive. -/
theorem CrawlPost.refl {web : String → Option Page} {maxD maxP : Nat}
    {st : CrawlState} : CrawlPost web maxD maxP st st :=
  ⟨le_max_right _ _, fun _ hp => Or.inl hp, fun _ hu => Or.inl hu, Eq.refl _⟩

/-- `CrawlPost` composes along consecutive traversal steps. -/
theorem CrawlPost.trans {web : String → Option Page} {maxD maxP : Nat}
    {a b c : CrawlState}
    (h1 : CrawlPost web maxD maxP a b) (h2 : CrawlPost web maxD maxP b c) :
    CrawlPost web maxD maxP a c := by
  obtain ⟨l1, f1, c1, s1⟩ := h1
  obtain ⟨l2, f2, c2, s2⟩ := h2
  refine ⟨by omega, ?_, ?_, s2.trans s1⟩
  · intro p hp
    rcases f2 p hp with h | h
    · exact f1 p h
    · exact Or.inr h
  · intro u hu
    rcases c2 u hu with h | h
    · exact c1 u h
    · exact Or.inr h

/-- Marking a URL visited and recording its fetch preserves `CrawlPost` when
the fetch depth is within bounds. -/
theorem CrawlPost.step1 {web : String → Option Page} {maxD maxP : Nat}
    {st : CrawlState} {url : String} {depth : Nat} (h1 : depth ≤ maxD) :
    CrawlPost web maxD maxP st
      { visited := url :: st.visited, fetched := (url, depth) :: st.fetched,
        crawled := st.crawled, jobStatus := st.jobStatus } := by
  refine ⟨le_max_right _ _, ?_, fun u hu => Or.inl hu, Eq.refl _⟩
  intro p hp
  rcases List.mem_cons.mp hp with rfl | hp
  · exact Or.inr h1
  · exact Or.inl hp

/-- Additionally recording a crawled page preserves `CrawlPost` when the page
count was still below the cap and the page fetched-and-extracted. -/
theorem CrawlPost.step2 {web : String → Option Page} {maxD maxP : Nat}
    {st : CrawlState} {url : String} {depth : Nat} (h1 : depth ≤ maxD)
    (h2 : st.crawled.length < maxP) (h3 : okExtract web url) :
    CrawlPost web maxD maxP st
      { visited := url :: st.visited, fetched := (url, depth) :: st.fetched,
        crawled := url :: st.crawled, jobStatus := st.jobStatus } := by
  refine ⟨?_, ?_, ?_, Eq.refl _⟩
  · refine le_trans ?_ (le_max_left _ _)
    show (url :: st.crawled).length ≤ maxP
    simp only [List.length_cons]
    omega
  · intro p hp
    rcases List.mem_cons.mp hp with rfl | hp
    · exact Or.inr h1
    · exact Or.inl hp
  · intro u hu
    rcases List.mem_cons.mp hu with rfl | hu
    · exact Or.inr h3
    · exact Or.inl hu

/-- Main crawl invariant: any run of `_crawl_recursive` relates its input and
output states by `CrawlPost`. -/
theorem crawl_recursive_post (web : String → Option Page) (maxD maxP : Nat)
    (url : String) (depth : Nat) (st : CrawlState) :
    CrawlPost web maxD maxP st (crawl_recursive web maxD maxP url depth st) := by
  refine crawl_recursive.induct web maxD maxP
    (fun url depth st =>
      CrawlPost web maxD maxP st (crawl_recursive web maxD maxP url depth st))
    (fun links depth st =>
      CrawlPost web maxD maxP st (crawl_links web maxD maxP links depth st))
    ?_ ?_ ?_ ?_ ?_ ?_ ?_ ?_ url depth st
  · intro url depth st h
    rw [crawl_recursive, if_pos h]
    exact CrawlPost.refl
  · intro url depth st h hweb
    rw [crawl_recursive, if_neg h]
    simp only [hweb]
    push_neg at h
    exact CrawlPost.step1 h.1
  · intro url depth st h page hweb hok hext
    rw [crawl_recursive, if_neg h]
    simp only [hweb, hok, hext, if_true]
    push_neg at h
    exact CrawlPost.step1 h.1
  · intro url depth st h st1 page hweb hok val hext st2 hdep ih
    rw [crawl_recursive, if_neg h]
    simp only [hweb, hok, hext, if_true, dif_pos hdep]
    push_neg at h
    exact CrawlPost.trans
      (CrawlPost.step2 h.1 h.2.1 ⟨page, hweb, hok, by simp [hext]⟩) ih
  · intro url depth st h page hweb hok val hext hdep
    rw [crawl_recursive, if_neg h]
    simp only [hweb, hok, hext, if_true, dif_neg hdep]
    push_neg at h
    exact CrawlPost.step2 h.1 h.2.1 ⟨page, hweb, hok, by simp [hext]⟩
  · intro url depth st h page hweb hok
    rw [crawl_recursive, if_neg h]
    simp only [hweb, hok, Bool.false_eq_true, if_false]
    push_neg at h
    exact CrawlPost.step1 h.1
  · intro depth st
    rw [crawl_links]
    exact CrawlPost.refl
  · intro depth st l ls ih1 ih2
    rw [crawl_links]
    exact CrawlPost.trans ih1 ih2

/-- The crawler's behaviour does not depend on the job-status column: it
commutes with any overwrite of that column, because `_crawl_recursive` never
reads the job row. -/
theorem crawl_recursive_status_blind (web : String → Option Page)
    (maxD maxP : Nat) (url : String) (depth : Nat) (st : CrawlState) :
    ∀ x, crawl_recursive web maxD maxP url depth (setStatus x st) =
      setStatus x (crawl_recursive web maxD maxP url depth st) := by
  refine crawl_recursive.induct web maxD maxP
    (fun url depth st => ∀ x,
      crawl_recursive web maxD maxP url depth (setStatus x st) =
        setStatus x (crawl_recursive web maxD maxP url depth st))
    (fun links depth st => ∀ x,
      crawl_links web maxD maxP links depth (setStatus x st) =
        setStatus x (crawl_links web maxD maxP links depth st))
    ?_ ?_ ?_ ?_ ?_ ?_ ?_ ?_ url depth st
  · intro url depth st h x
    simp only [setStatus]
    conv_lhs => rw [crawl_recursive]
    conv_rhs => rw [crawl_recursive]
    rw [if_pos h]
    rw [if_pos (show depth > maxD ∨
      (CrawlState.mk st.visited st.fetched st.crawled x).crawled.length ≥ maxP ∨
      url ∈ (CrawlState.mk st.visited st.fetched st.crawled x).visited from h)]
  · intro url depth st h hweb x
    simp only [setStatus]
    conv_lhs => rw [crawl_recursive]
    conv_rhs => rw [crawl_recursive]
    rw [if_neg h]
    rw [if_neg (show ¬(depth > maxD ∨
      (CrawlState.mk st.visited st.fetched st.crawled x).crawled.length ≥ maxP ∨
      url ∈ (CrawlState.mk st.visited st.fetched st.crawled x).visited) from h)]
    simp only [hweb]
  · intro url depth st h page hweb hok hext x
    simp only [setStatus]
    conv_lhs => rw [crawl_recursive]
    conv_rhs => rw [crawl_recursive]
    rw [if_neg h]
    rw [if_neg (show ¬(depth > maxD ∨
      (CrawlState.mk st.visited st.fetched st.crawled x).crawled.length ≥ maxP ∨
      url ∈ (CrawlState.mk st.visited st.fetched st.crawled x).visited) from h)]
    simp only [hweb, hok, hext, if_true]
  · intro url depth st h st1 page hweb hok val hext st2 hdep ih x
    simp only [setStatus] at ih ⊢
    conv_lhs => rw [crawl_recursive]
    conv_rhs => rw [crawl_recursive]
    rw [if_neg h]
    rw [if_neg (show ¬(depth > maxD ∨
      (CrawlState.mk st.visited st.fetched st.crawled x).crawled.length ≥ maxP ∨
      url ∈ (CrawlState.mk st.visited st.fetched st.crawled x).visited) from h)]
    simp only [hweb, hok, hext, if_true, dif_pos hdep]
    exact ih x
  · intro url depth st h page hweb hok val hext hdep x
    simp only [setStatus]
    conv_lhs => rw [crawl_recursive]
    conv_rhs => rw [crawl_recursive]
    rw [if_neg h]
    rw [if_neg (show ¬(depth > maxD ∨
      (CrawlState.mk st.visited st.fetched st.crawled x).crawled.length ≥ maxP ∨
      url ∈ (CrawlState.mk st.visited st.fetched st.crawled x).visited) from h)]
    simp only [hweb, hok, hext, if_true, dif_neg hdep]
  · intro url depth st h page hweb hok x
    simp only [setStatus]
    conv_lhs => rw [crawl_recursive]
    conv_rhs => rw [crawl_recursive]
    rw [if_neg h]
    rw [if_neg (show ¬(depth > maxD ∨
      (CrawlState.mk st.visited st.fetched st.crawled x).crawled.length ≥ maxP ∨
      url ∈ (CrawlState.mk st.visited st.fetched st.crawled x).visited) from h)]
    simp only [hweb, hok, Bool.false_eq_true, if_false]
  · intro depth st x
    simp only [setStatus]
    rw [crawl_links, crawl_links]
  · intro depth st l ls ih1 ih2 x
    simp only [setStatus] at ih1 ih2 ⊢
    conv_lhs => rw [crawl_links]
    conv_rhs => rw [crawl_links]
    rw [ih1 x, ih2 x]

/-- The chunks of `_analyze_with_corporate_api` concatenate back to the full
text: they are contiguous and non-overlapping. -/
theorem text_chunks_flatten (csize : Nat) (hc : csize ≠ 0) (t : List Char) :
    (text_chunks csize t).flatten = t := by
  induction t using text_chunks.induct csize with
  | case1 t h =>
    rcases h with h | h
    · rw [text_chunks, if_pos (Or.inl h), h]
      rfl
    · exact absurd h hc
  | case2 t h ih =>
    rw [text_chunks, if_neg h]
    rw [List.flatten_cons, ih]
    exact List.take_append_drop csize t

/-- The `i`-th chunk is the fixed-size slice of the text starting at character
offset `i * csize`. -/
theorem text_chunks_get (csize : Nat) (t : List Char) :
    ∀ i c, (text_chunks csize t).get? i = some c →
      c = (t.drop (i * csize)).take csize := by
  induction t using text_chunks.induct csize with
  | case1 t h =>
    intro i c hc
    rw [text_chunks, if_pos h] at hc
    simp at hc
  | case2 t h ih =>
    intro i c hc
    rw [text_chunks, if_neg h] at hc
    match i with
    | 0 =>
      simp at hc
      subst hc
      simp
    | Nat.succ j =>
      simp only [List.get?_cons_succ] at hc
      have := ih j c hc
      rw [this, List.drop_drop]
      have harith : csize + j * csize = j.succ * csize := by
        rw [Nat.succ_eq_add_one]
        ring
      rw [harith]

/-- A slice taken inside the chunk at offset `off` equals the slice of the
full text at the offset-shifted positions. -/
theorem chunk_slice (csize off s e : Nat) (t : List Char)
    (hse : s ≤ e) (he : e ≤ csize) :
    (((t.drop off).take csize).drop s).take (e - s) =
      (t.drop (off + s)).take (e - s) := by
  rw [List.drop_take, List.take_take, Nat.min_eq_left (by omega), List.drop_drop]

/-- Every combined suggestion comes from one backend call on one chunk, with
both positions shifted by that chunk's character offset. -/
theorem analyze_chunks_mem (backend : List Char → List RawSugg) (csize : Nat) :
    ∀ (cs : List (List Char)) (idx : Nat) (s2 : RawSugg),
      s2 ∈ analyze_chunks backend csize cs idx →
      ∃ j c s, cs.get? j = some c ∧ s ∈ backend c ∧
        s2 = offset_suggestion ((idx + j) * csize) s := by
  intro cs
  induction cs with
  | nil =>
    intro idx s2 h
    simp [analyze_chunks] at h
  | cons c cs ih =>
    intro idx s2 h
    rw [analyze_chunks] at h
    rcases List.mem_append.mp h with h | h
    · obtain ⟨s, hs, rfl⟩ := List.mem_map.mp h
      exact ⟨0, c, s, by simp, hs, by simp⟩
    · obtain ⟨j, c2, s, hj, hs, heq⟩ := ih (idx + 1) s2 h
      refine ⟨j + 1, c2, s, by simpa using hj, hs, ?_⟩
      rw [heq]
      have : idx + 1 + j = idx + (j + 1) := by omega
      rw [this]

/-- Splitting a text at `[s, e)`: it is the prefix before `s`, the slice
`[s, e)`, and the suffix from `e`. -/
theorem splice_decomposition (l : List Char) (s e : Nat) (h1 : s ≤ e) :
    l = l.take s ++ ((l.drop s).take (e - s)) ++ l.drop e := by
  conv_lhs => rw [← List.take_append_drop e l]
  rw [← List.take_append_drop s (l.take e)]
  rw [List.take_take, Nat.min_eq_left h1, List.drop_take]

/-!  Claim theorems. -/

/-- Claim C1 is false on the code: suggestion 1 of `dbApplied` already has
status `"applied"`, yet `apply_suggestion` returns `True` and splices the
text again (the already-corrected `"Hello world"` degrades to
`"Hello orld"`), because `ContentAnalyzer.apply_suggestion` never checks
`suggestion.status`. -/
theorem claim_C1_counterexample :
    ((dbApplied.suggestions.find? (fun s => s.id == 1)).map Suggestion.status =
      some "applied") ∧
    (apply_suggestion dbApplied 1 none).fst = true ∧
    (apply_suggestion dbApplied 1 none).snd.contents.map Content.cleaned_text =
      ["Hello orld".toList] := by
  refine ⟨by decide, by decide, by decide⟩

/-- Claim C1 amended: `apply_suggestion` performs no status check at all.
Whenever the suggestion id resolves and its content row exists — even when
the suggestion's status is already `"applied"` — apply returns `True` and
splices the current text again, so a second apply edits the content a
second time. -/
theorem claim_C1_amended (db : DB) (sid : Nat) (u : Option String)
    (s : Suggestion) (c : Content)
    (hs : db.suggestions.find? (fun s0 => s0.id == sid) = some s)
    (hc : db.contents.find? (fun c0 => c0.id == s.content_id) = some c)
    (_happlied : s.status = "applied") :
    (apply_suggestion db sid u).fst = true ∧
    (apply_suggestion db sid u).snd.contents =
      db.contents.map (fun c0 => if c0.id == c.id then
        { c0 with cleaned_text := c.cleaned_text.take s.start_position ++
            s.suggested_text ++ c.cleaned_text.drop s.end_position }
        else c0) := by
  constructor
  · simp only [apply_suggestion, hs, hc]
  · simp only [apply_suggestion, hs, hc]

/-- Witness for C1 amended at `dbApplied`: the second apply of suggestion 1
succeeds again and re-splices. -/
theorem claim_C1_witness :
    (apply_suggestion dbApplied 1 none).fst = true ∧
    (apply_suggestion dbApplied 1 none).snd.contents =
      dbApplied.contents.map (fun c0 => if c0.id == 1 then
        { c0 with cleaned_text := "Hello world".toList.take 5 ++
            " ".toList ++ "Hello world".toList.drop 7 }
        else c0) :=
  claim_C1_amended dbApplied 1 none
    { id := 1, content_id := 1,
      original_text := "  ".toList, suggested_text := " ".toList,
      error_type := "punctuation",
      explanation := "Multiple spaces should be replaced with a single space",
      confidence_score := 8/10, start_position := 5, end_position := 7,
      status := "applied" }
    { id := 1, url := "u", title := "t".toList,
      original_text := "Hello  world".toList,
      cleaned_text := "Hello world".toList, status := "analyzed" }
    rfl rfl rfl

/-- Claim C3: a successful apply on in-range positions replaces exactly the
half-open range `[start, end)` of the current cleaned_text with
`suggested_text`, sets the suggestion's status to `"applied"`, and appends
a `"suggestion_applied"` audit log. -/
theorem claim_C3_apply_splice (db : DB) (sid : Nat) (u : Option String)
    (s : Suggestion) (c : Content)
    (hs : db.suggestions.find? (fun s0 => s0.id == sid) = some s)
    (hc : db.contents.find? (fun c0 => c0.id == s.content_id) = some c)
    (hse : s.start_position ≤ s.end_position)
    (hend : s.end_position ≤ c.cleaned_text.length) :
    (apply_suggestion db sid u).fst = true ∧
    (apply_suggestion db sid u).snd.contents =
      db.contents.map (fun c0 => if c0.id == c.id then
        { c0 with cleaned_text := c.cleaned_text.take s.start_position ++
            s.suggested_text ++ c.cleaned_text.drop s.end_position }
        else c0) ∧
    c.cleaned_text = c.cleaned_text.take s.start_position ++
      ((c.cleaned_text.drop s.start_position).take
        (s.end_position - s.start_position)) ++
      c.cleaned_text.drop s.end_position ∧
    (apply_suggestion db sid u).snd.suggestions =
      db.suggestions.map (fun s0 =>
        if s0.id == sid then { s0 with status := "applied" } else s0) ∧
    (apply_suggestion db sid u).snd.audit_logs =
      db.audit_logs ++
        [{ content_id := c.id, action := "suggestion_applied",
           details := "Applied suggestion " ++ toString sid, user_id := u }] ∧
    (c.cleaned_text.take s.start_position).length = s.start_position ∧
    ((c.cleaned_text.drop s.start_position).take
      (s.end_position - s.start_position)).length =
        s.end_position - s.start_position := by
  have hsl : s.start_position ≤ c.cleaned_text.length := le_trans hse hend
  refine ⟨?_, ?_, splice_decomposition c.cleaned_text _ _ hse, ?_, ?_, ?_, ?_⟩
  · simp only [apply_suggestion, hs, hc]
  · simp only [apply_suggestion, hs, hc]
  · simp only [apply_suggestion, hs, hc]
  · simp only [apply_suggestion, hs, hc]
  · rw [List.length_take]
    omega
  · rw [List.length_take, List.length_drop]
    omega

/-- Witness for C3, the spec's own example: cleaned_text `"Hello  world"`
with suggestion `{start: 5, end: 7, suggested_text: " "}` yields
`"Hello world"`. -/
theorem claim_C3_witness :
    ((apply_suggestion dbHello 1 none).fst = true ∧
      (apply_suggestion dbHello 1 none).snd.contents.map Content.cleaned_text =
        ["Hello world".toList]) := by
  have h := claim_C3_apply_splice dbHello 1 none
    { id := 1, content_id := 1,
      original_text := "  ".toList, suggested_text := " ".toList,
      error_type := "punctuation",
      explanation := "Multiple spaces should be replaced with a single space",
      confidence_score := 8/10, start_position := 5, end_position := 7,
      status := "pending" }
    { id := 1, url := "u", title := "t".toList,
      original_text := "Hello  world".toList,
      cleaned_text := "Hello  world".toList, status := "analyzed" }
    rfl rfl (by decide) (by decide)
  refine ⟨h.1, ?_⟩
  rw [h.2.1]
  decide

/-- Claim C4 is false on the code: the positions `[10, 20)` of `dbShort`'s
suggestion lie far outside its 3-character content `"abc"`, yet
`apply_suggestion` returns `True` (not `False`) and mutates the content to
`"abcX"` — Python slicing clamps out-of-range indices instead of failing,
and the source validates nothing before splicing. -/
theorem claim_C4_counterexample :
    ((dbShort.suggestions.find? (fun s => s.id == 1)).map
      (fun s => (s.start_position, s.end_position)) = some (10, 20)) ∧
    dbShort.contents.map (fun c => c.cleaned_text.length) = [3] ∧
    (apply_suggestion dbShort 1 none).fst = true ∧
    (apply_suggestion dbShort 1 none).snd.contents.map Content.cleaned_text =
      ["abcX".toList] := by
  refine ⟨by decide, by decide, by decide, by decide⟩

/-- Claim C4 amended: `apply_suggestion` returns `False` (never raising)
exactly when the suggestion id is unknown or its content row is missing;
whenever it returns `False` the store is left completely unchanged.
Out-of-range positions are not detected: they clamp and still succeed. -/
theorem claim_C4_amended (db : DB) (sid : Nat) (u : Option String) :
    ((apply_suggestion db sid u).fst = false ↔
      (db.suggestions.find? (fun s0 => s0.id == sid) = none ∨
        ∃ s, db.suggestions.find? (fun s0 => s0.id == sid) = some s ∧
          db.contents.find? (fun c0 => c0.id == s.content_id) = none)) ∧
    ((apply_suggestion db sid u).fst = false →
      (apply_suggestion db sid u).snd = db) := by
  rcases hs : db.suggestions.find? (fun s0 => s0.id == sid) with _ | s
  · simp [apply_suggestion, hs]
  · rcases hc : db.contents.find? (fun c0 => c0.id == s.content_id) with _ | c
    · simp [apply_suggestion, hs, hc]
      intro x hx
      have hpx := List.find?_eq_none.mp hc x hx
      simpa using hpx
    · simp [apply_suggestion, hs, hc]
      exact ⟨c, List.mem_of_find?_eq_some hc, by simpa using List.find?_some hc⟩

/-- Claim C2 is false on the code: with the job row already `"cancelled"`
before the crawl starts, `_crawl_recursive` still fetches both pages of
`exampleWeb` — the source never reads `Job.status` during traversal, so the
crawler does not observe cancellation at any step. -/
theorem claim_C2_counterexample :
    (crawl_recursive exampleWeb 1 10 "a" 0
      { visited := [], fetched := [], crawled := [], jobStatus := "cancelled"
        }).fetched.length = 2 ∧
    (crawl_recursive exampleWeb 1 10 "a" 0
      { visited := [], fetched := [], crawled := [], jobStatus := "cancelled"
        }).jobStatus = "cancelled" := by
  constructor <;> simp [crawl_recursive, crawl_links, exampleWeb]

/-- Claim C2 amended: a cancellation request on a `pending` or `running` job
does transition it to `cancelled` (and is rejected with HTTP 400 on any
other status), but the crawler never observes the cancellation: the crawl
commutes with any overwrite of the job-status column, so a cancelled job's
traversal proceeds exactly as an uncancelled one and stops only at its own
depth/page/visited limits. -/
theorem claim_C2_amended :
    (∀ (jobs : List CrawlJob) (jid : Nat) (job : CrawlJob),
      jobs.find? (fun j => j.id == jid) = some job →
      (job.status = "pending" ∨ job.status = "running") →
      cancel_crawl_job jobs jid = Except.ok (jobs.map (fun j =>
        if j.id == jid then { j with status := "cancelled" } else j))) ∧
    (∀ (jobs : List CrawlJob) (jid : Nat) (job : CrawlJob),
      jobs.find? (fun j => j.id == jid) = some job →
      ¬(job.status = "pending" ∨ job.status = "running") →
      cancel_crawl_job jobs jid = Except.error 400) ∧
    (∀ (web : String → Option Page) (maxD maxP : Nat) (url : String)
      (depth : Nat) (st : CrawlState) (x : String),
      crawl_recursive web maxD maxP url depth (setStatus x st) =
        setStatus x (crawl_recursive web maxD maxP url depth st)) := by
  refine ⟨?_, ?_, ?_⟩
  · intro jobs jid job hfind hstat
    simp only [cancel_crawl_job, hfind, if_pos hstat]
  · intro jobs jid job hfind hstat
    simp only [cancel_crawl_job, hfind, if_neg hstat]
  · intro web maxD maxP url depth st x
    exact crawl_recursive_status_blind web maxD maxP url depth st x

/-- Claim C5: at the end of a run `pages_crawled ≤ max_pages`; no URL is ever
fetched at a depth greater than `max_depth`; and a URL is never expanded
when its depth exceeds `max_depth`, the page count has reached the cap, or
the URL was already visited. -/
theorem claim_C5_crawl_limits (web : String → Option Page) (maxD maxP : Nat)
    (start_url : String) (job : CrawlJob) :
    (crawl_url web maxD maxP start_url job).fst.pages_crawled ≤ maxP ∧
    (∀ p ∈ (crawl_url web maxD maxP start_url job).snd.fetched, p.2 ≤ maxD) ∧
    (∀ (url : String) (depth : Nat) (st : CrawlState),
      depth > maxD ∨ st.crawled.length ≥ maxP ∨ url ∈ st.visited →
      crawl_recursive web maxD maxP url depth st = st) := by
  have hpost := crawl_recursive_post web maxD maxP start_url 0
    { visited := [], fetched := [], crawled := [], jobStatus := "running" }
  refine ⟨?_, ?_, ?_⟩
  · have h1 := hpost.1
    simp only [crawl_url]
    simpa using h1
  · intro p hp
    have h2 := hpost.2.1 p hp
    rcases h2 with h2 | h2
    · exact absurd h2 (List.not_mem_nil p)
    · exact h2
  · intro url depth st h
    rw [crawl_recursive, if_pos h]

/-- Claim C6: chunking splits the text into fixed-size contiguous
non-overlapping chunks that concatenate back to the full text; each
combined suggestion is one backend suggestion for one chunk with both
positions shifted by the chunk's character offset, and for in-chunk
positions the shifted positions select the same substring of the full text
as the original positions selected within the chunk. -/
theorem claim_C6_chunking (backend : List Char → List RawSugg) (csize : Nat)
    (hc : 0 < csize) (t : List Char) :
    (text_chunks csize t).flatten = t ∧
    (∀ i c, (text_chunks csize t).get? i = some c →
      c = (t.drop (i * csize)).take csize) ∧
    (∀ s2 ∈ analyze_with_corporate_api backend csize t,
      ∃ i c s, (text_chunks csize t).get? i = some c ∧ s ∈ backend c ∧
        s2 = offset_suggestion (i * csize) s ∧
        (s.start_position ≤ s.end_position → s.end_position ≤ c.length →
          (c.drop s.start_position).take
            (s.end_position - s.start_position) =
          (t.drop s2.start_position).take
            (s2.end_position - s2.start_position))) := by
  refine ⟨text_chunks_flatten csize (by omega) t, text_chunks_get csize t, ?_⟩
  intro s2 hs2
  obtain ⟨j, c, s, hj, hsb, heq⟩ :=
    analyze_chunks_mem backend csize (text_chunks csize t) 0 s2 hs2
  rw [Nat.zero_add] at heq
  refine ⟨j, c, s, hj, hsb, heq, ?_⟩
  intro h1 h2
  have hcdef := text_chunks_get csize t j c hj
  subst hcdef
  have hlen : ((t.drop (j * csize)).take csize).length ≤ csize := by
    rw [List.length_take]
    exact Nat.min_le_left _ _
  have he2 : s.end_position ≤ csize := le_trans h2 hlen
  rw [heq]
  simp only [offset_suggestion]
  have harith : s.end_position + j * csize - (s.start_position + j * csize) =
      s.end_position - s.start_position := by omega
  rw [harith]
  rw [show s.start_position + j * csize = j * csize + s.start_position from
    Nat.add_comm _ _]
  exact chunk_slice csize (j * csize) s.start_position s.end_position t h1 he2

/-- Witness for C6 at chunk size 2 over `"abcd"` with a backend that
rewrites the first character of each chunk. -/
theorem claim_C6_witness :
    0 < 2 ∧
    ((text_chunks 2 "abcd".toList).flatten = "abcd".toList ∧
    (∀ i c, (text_chunks 2 "abcd".toList).get? i = some c →
      c = ("abcd".toList.drop (i * 2)).take 2) ∧
    (∀ s2 ∈ analyze_with_corporate_api exampleBackend 2 "abcd".toList,
      ∃ i c s, (text_chunks 2 "abcd".toList).get? i = some c ∧
        s ∈ exampleBackend c ∧
        s2 = offset_suggestion (i * 2) s ∧
        (s.start_position ≤ s.end_position → s.end_position ≤ c.length →
          (c.drop s.start_position).take
            (s.end_position - s.start_position) =
          ("abcd".toList.drop s2.start_position).take
            (s2.end_position - s2.start_position)))) :=
  ⟨by decide, claim_C6_chunking exampleBackend 2 (by decide) "abcd".toList⟩

/-- Claim C7: every URL returned by `_extract_links` is an absolute URL whose
host equals the base URL's host (relative hrefs having been resolved
against the base URL), and the returned list contains no duplicates. -/
theorem claim_C7_links_same_host (hrefs : List Href) (base : Url) :
    (∀ u ∈ extract_links hrefs base, u.host = base.host) ∧
    (extract_links hrefs base).Nodup := by
  constructor
  · intro u hu
    unfold extract_links at hu
    rw [List.mem_dedup] at hu
    have hp := List.of_mem_filter hu
    simpa using hp
  · exact List.nodup_dedup _

/-- Claim C8: with no remote backend configured, the basic fallback rules
turn `"a  b"` into exactly one punctuation suggestion replacing the double
space with a single space, and `"Hi.World"` into exactly one punctuation
suggestion on `".W"` suggesting `". W"`. -/
theorem claim_C8_fallback_examples :
    check_basic_punctuation "a  b".toList =
      [{ original_text := "  ".toList, suggested_text := " ".toList,
         error_type := "punctuation",
         explanation := "Multiple spaces should be replaced with a single space",
         confidence_score := 8/10, start_position := 1, end_position := 3 }] ∧
    check_basic_punctuation "Hi.World".toList =
      [{ original_text := ".W".toList, suggested_text := ". W".toList,
         error_type := "punctuation",
         explanation := "Missing space after punctuation",
         confidence_score := 7/10, start_position := 2, end_position := 4 }] := by
  constructor <;>
    simp [check_basic_punctuation, finditer_double_space, finditer_missing_space]

/-- Claim C9: the extractor is total — it yields `some` triple exactly when
the parse pipeline succeeds and `none` exactly when it raises, never
letting the exception escape — and the crawler skips pages that fail to
fetch or extract: every URL recorded as crawled had a successful HTTP-200
fetch with successful extraction. -/
theorem claim_C9_extractor_safe (parse : String → Except String Extracted)
    (html : String) (web : String → Option Page) (maxD maxP : Nat)
    (url : String) (depth : Nat) (st : CrawlState) :
    (extract_content parse html = none ↔ ∃ e, parse html = Except.error e) ∧
    ((extract_content parse html).isSome ↔ ∃ d, parse html = Except.ok d) ∧
    (∀ u ∈ (crawl_recursive web maxD maxP url depth st).crawled,
      u ∈ st.crawled ∨ okExtract web u) := by
  refine ⟨?_, ?_, (crawl_recursive_post web maxD maxP url depth st).2.2.1⟩
  · unfold extract_content
    rcases hp : parse html with e | d <;> simp [hp]
  · unfold extract_content
    rcases hp : parse html with e | d <;> simp [hp]

/-- Claim C10: every suggestion produced by the basic punctuation fallback
has positions consistent with the input text:
`0 ≤ start < end ≤ length`, and the slice `[start, end)` of the input
equals the suggestion's `original_text`. -/
theorem claim_C10_fallback_positions (t : List Char) (s : RawSugg)
    (hs : s ∈ check_basic_punctuation t) :
    0 ≤ s.start_position ∧ s.start_position < s.end_position ∧
    s.end_position ≤ t.length ∧
    (t.drop s.start_position).take (s.end_position - s.start_position) =
      s.original_text := by
  unfold check_basic_punctuation at hs
  rcases List.mem_append.mp hs with h | h
  · have hsd := finditer_double_space_sound t 0 s h
    exact ⟨Nat.zero_le _, hsd.2⟩
  · have hsd := finditer_missing_space_sound t 0 s h
    exact ⟨Nat.zero_le _, hsd.2⟩

/-- Witness for C10 on the double-space suggestion of `"a  b"`. -/
theorem claim_C10_witness :
    dsExample ∈ check_basic_punctuation "a  b".toList ∧
    (0 ≤ dsExample.start_position ∧
     dsExample.start_position < dsExample.end_position ∧
     dsExample.end_position ≤ "a  b".toList.length ∧
     ("a  b".toList.drop dsExample.start_position).take
       (dsExample.end_position - dsExample.start_position) =
         dsExample.original_text) :=
  have hm : dsExample ∈ check_basic_punctuation "a  b".toList := by
    simp [check_basic_punctuation, finditer_double_space,
      finditer_missing_space, dsExample]
  ⟨hm, claim_C10_fallback_positions "a  b".toList dsExample hm⟩

end ContentProofing
